import Mathlib

/-!
Verification development for the deepchecks `WeakSegmentsPerformance` check
(`deepchecks/tabular/checks/model_evaluation/weak_segments_performance.py`) and the
recommender `_DummyModel` (`deepchecks/recommender/context.py`).

Encoded feature values, per-sample losses and scores are embedded as rationals.
A dataset is a list of rows, each row a function from feature name to encoded value.
-/

namespace WeakSegments

/-- A row of the encoded dataset: feature name to encoded numeric value. -/
abbrev Row : Type := String → ℚ

/-- A range constraint on one feature; `none` stands for an infinite bound
(`np.NINF` for the lower, `np.inf` for the upper bound). -/
structure FRange where
  lo : Option ℚ
  hi : Option ℚ
deriving DecidableEq

/-- The fully unbounded range `[np.NINF, np.inf]` of lines 276 and 278. -/
def FRange.unbounded : FRange := ⟨none, none⟩

/-- Whether a value satisfies the range constraint (inclusive on both ends). -/
def FRange.holds (r : FRange) (v : ℚ) : Bool :=
  (match r.lo with
   | none => true
   | some l => decide (l ≤ v)) &&
  (match r.hi with
   | none => true
   | some h => decide (v ≤ h))

/-- Modelled from the spec: the `filters` mapping of a `DeepchecksFilter`
(`deepchecks.utils.performance.partition`, not part of the excerpt) — per the spec,
a Feature Filter is a mapping from feature name to an inclusive numeric range
`[lower, upper]` or a sentinel unbounded range. -/
abbrev SegmentFilter : Type := List (String × FRange)

/-- A row matches a filter when it satisfies every range constraint of the filter. -/
def matchesFilter (f : SegmentFilter) (row : Row) : Bool :=
  f.all (fun nr => nr.2.holds (row nr.1))

/-- Modelled from the spec: applying a Feature Filter to a dataset
(`DeepchecksFilter.filter`, not part of the excerpt) yields the rectangular subset of
samples satisfying all range constraints. -/
def filterData (f : SegmentFilter) (data : List Row) : List Row :=
  data.filter (matchesFilter f)

/-- One iteration of the minimum-tracking loop of `get_worst_leaf_filter`
(lines 256-261): starting from `(np.inf, None)` — embedded as `none` — each leaf whose
score is strictly below the current minimum replaces it. -/
def worstStep (score : SegmentFilter → ℚ) (acc : Option (ℚ × SegmentFilter))
    (lf : SegmentFilter) : Option (ℚ × SegmentFilter) :=
  match acc with
  | none => some (score lf, lf)
  | some (m, mf) => if score lf < m then some (score lf, lf) else some (m, mf)

/-- Embedding of `get_worst_leaf_filter` (lines 254-262): iterate over the leaf filters
extracted from the fitted tree, score the rows matching each leaf with the scorer, and
keep the minimum-score leaf together with its score. The scorer — the value of
`scorer.run_on_data_and_label` on a slice — is an arbitrary function of the slice, and
the leaf filters of `convert_tree_leaves_into_filters` are a parameter. -/
def get_worst_leaf_filter (scorer : List Row → ℚ) (data : List Row)
    (leavesFilters : List SegmentFilter) : Option (ℚ × SegmentFilter) :=
  leavesFilters.foldl (worstStep (fun lf => scorer (filterData lf data))) none

/-- Embedding of `neg_worst_segment_score` (lines 264-265): the hyperparameter-selection
objective handed to `GridSearchCV`, the negation of the worst leaf score. -/
def neg_worst_segment_score (scorer : List Row → ℚ) (data : List Row)
    (leavesFilters : List SegmentFilter) : Option ℚ :=
  (get_worst_leaf_filter scorer data leavesFilters).map (fun p => -p.1)

lemma worstStep_foldl_spec (score : SegmentFilter → ℚ) :
    ∀ (leaves : List SegmentFilter) (m₀ : ℚ) (f₀ : SegmentFilter), score f₀ = m₀ →
      ∃ m f, leaves.foldl (worstStep score) (some (m₀, f₀)) = some (m, f) ∧
        (f = f₀ ∨ f ∈ leaves) ∧ score f = m ∧ m ≤ m₀ ∧ ∀ lf ∈ leaves, m ≤ score lf := by
  intro leaves
  induction leaves with
  | nil =>
      intro m₀ f₀ h0
      exact ⟨m₀, f₀, rfl, Or.inl rfl, h0, le_refl m₀, by simp⟩
  | cons x rest ih =>
      intro m₀ f₀ h0
      by_cases hx : score x < m₀
      · have step : worstStep score (some (m₀, f₀)) x = some (score x, x) := by
          simp [worstStep, hx]
        obtain ⟨m, f, hfold, hmem, hsc, hle, hall⟩ := ih (score x) x rfl
        refine ⟨m, f, ?_, ?_, hsc, le_trans hle (le_of_lt hx), ?_⟩
        · simpa [List.foldl_cons, step] using hfold
        · rcases hmem with h | h
          · exact Or.inr (by simp [h])
          · exact Or.inr (List.mem_cons_of_mem x h)
        · intro lf hlf
          rcases List.mem_cons.mp hlf with h | h
          · exact h ▸ hle
          · exact hall lf h
      · have step : worstStep score (some (m₀, f₀)) x = some (m₀, f₀) := by
          simp [worstStep, hx]
        obtain ⟨m, f, hfold, hmem, hsc, hle, hall⟩ := ih m₀ f₀ h0
        refine ⟨m, f, ?_, ?_, hsc, hle, ?_⟩
        · simpa [List.foldl_cons, step] using hfold
        · rcases hmem with h | h
          · exact Or.inl h
          · exact Or.inr (List.mem_cons_of_mem x h)
        · intro lf hlf
          rcases List.mem_cons.mp hlf with h | h
          · exact h ▸ le_trans hle (not_lt.mp hx)
          · exact hall lf h

/-- Claim C1: for every feature pair, the objective value handed to the cross-validated
grid search equals the negation of the worst leaf score, where the worst leaf score is
the minimum, over all leaf filters extracted from the fitted tree, of the scorer value
on the rows matching that leaf filter; and the leaf filter returned as the weak segment
is one attaining that minimum. -/
theorem C1_worst_leaf_objective (scorer : List Row → ℚ) (data : List Row)
    (leaves : List SegmentFilter) (h : leaves ≠ []) :
    ∃ m f, get_worst_leaf_filter scorer data leaves = some (m, f) ∧
      f ∈ leaves ∧ scorer (filterData f data) = m ∧
      (∀ lf ∈ leaves, m ≤ scorer (filterData lf data)) ∧
      neg_worst_segment_score scorer data leaves = some (-m) := by
  match leaves, h with
  | x :: rest, _ =>
      have step :
          worstStep (fun lf => scorer (filterData lf data)) none x =
            some (scorer (filterData x data), x) := rfl
      obtain ⟨m, f, hfold, hmem, hsc, hle, hall⟩ :=
        worstStep_foldl_spec (fun lf => scorer (filterData lf data)) rest
          (scorer (filterData x data)) x rfl
      have hget : get_worst_leaf_filter scorer data (x :: rest) = some (m, f) := by
        simpa [get_worst_leaf_filter, List.foldl_cons, step] using hfold
      refine ⟨m, f, hget, ?_, hsc, ?_, ?_⟩
      · rcases hmem with h | h
        · simp [h]
        · exact List.mem_cons_of_mem x h
      · intro lf hlf
        rcases List.mem_cons.mp hlf with h | h
        · exact h ▸ hle
        · exact hall lf h
      · simp [neg_worst_segment_score, hget]

/-- A leaf filter on one feature, used as a concrete instance. -/
def leafA : SegmentFilter := [("a", ⟨some 0, some 1⟩)]

/-- A second leaf filter on one feature, used as a concrete instance. -/
def leafB : SegmentFilter := [("a", ⟨some 2, some 3⟩)]

theorem C1_worst_leaf_objective_witness :
    ∃ m f,
      get_worst_leaf_filter (fun rows => (rows.length : ℚ)) [] [leafA, leafB] =
        some (m, f) ∧
      f ∈ [leafA, leafB] ∧ ((filterData f [] : List Row).length : ℚ) = m ∧
      (∀ lf ∈ [leafA, leafB], m ≤ ((filterData lf [] : List Row).length : ℚ)) ∧
      neg_worst_segment_score (fun rows => (rows.length : ℚ)) [] [leafA, leafB] =
        some (-m) :=
  C1_worst_leaf_objective (fun rows => (rows.length : ℚ)) [] [leafA, leafB] (by simp)

/-- One row of the `weak_segments` DataFrame of `_weak_segments_search` (line 225-226):
score, the two features, their ranges, and the `% of data` column. -/
structure SegmentRecord where
  score : ℚ
  feature1 : String
  range1 : FRange
  feature2 : String
  range2 : FRange
  dataPercent : ℚ
deriving DecidableEq

instance : Inhabited SegmentRecord :=
  ⟨⟨0, "", FRange.unbounded, "", FRange.unbounded, 0⟩⟩

/-- Lines 275-278 of `_find_weak_segment`: a feature the winning tree did not split on
gets the unbounded range `[np.NINF, np.inf]` added to the filter. -/
def ensureBoth (f1 f2 : String) (filt : SegmentFilter) : SegmentFilter :=
  let filt1 := if (filt.lookup f1).isSome then filt else filt ++ [(f1, FRange.unbounded)]
  if (filt1.lookup f2).isSome then filt1 else filt1 ++ [(f2, FRange.unbounded)]

/-- Embedding of `_find_weak_segment` (lines 241-279). The cross-validated grid-search
fit is external (`sklearn`), so its outcome per feature pair is a parameter `fit`:
`none` models the `ValueError` path (lines 272-273), `some (s, f)` the score and
worst-leaf filter obtained from the best estimator via `get_worst_leaf_filter`. -/
def find_weak_segment (fit : String → String → Option (ℚ × SegmentFilter))
    (f1 f2 : String) : Option (ℚ × SegmentFilter) :=
  (fit f1 f2).map (fun sf => (sf.1, ensureBoth f1 f2 sf.2))

/-- The feature pairs visited by the nested loops of `_weak_segments_search`
(lines 227-229): indices `i < j < min(len(feature_rank), n_top_features)`. -/
def featurePairs (featureRank : List String) (nTop : ℕ) : List (String × String) :=
  let k := min featureRank.length nTop
  (List.range k).flatMap (fun i =>
    ((List.range k).filter (fun j => i < j)).map (fun j =>
      (featureRank.getD i "", featureRank.getD j "")))

/-- One iteration of the pair loop of `_weak_segments_search` (lines 230-238): a `None`
score skips the pair, otherwise one record is appended whose `% of data` value is
`100 * len(filtered rows) / n_samples`. -/
def searchStep (fit : String → String → Option (ℚ × SegmentFilter)) (data : List Row)
    (acc : List SegmentRecord) (p : String × String) : List SegmentRecord :=
  match find_weak_segment fit p.1 p.2 with
  | none => acc
  | some (score, filt) =>
      acc ++ [⟨score, p.1, (filt.lookup p.1).getD FRange.unbounded, p.2,
              (filt.lookup p.2).getD FRange.unbounded,
              100 * ((filterData filt data).length : ℚ) / (data.length : ℚ)⟩]

/-- Record ordering used by the final `sort_values` on the score column. -/
def recLE : SegmentRecord → SegmentRecord → Prop := fun a b => a.score ≤ b.score

instance : DecidableRel recLE := fun a b => inferInstanceAs (Decidable (a.score ≤ b.score))

instance : IsTotal SegmentRecord recLE := ⟨fun a b => le_total a.score b.score⟩

instance : IsTrans SegmentRecord recLE := ⟨fun _ _ _ h1 h2 => le_trans h1 h2⟩

/-- Embedding of `_weak_segments_search` (lines 223-239): visit every feature pair,
accumulate one record per successful pair, and sort the records ascending by score. -/
def weak_segments_search (fit : String → String → Option (ℚ × SegmentFilter))
    (data : List Row) (featureRank : List String) (nTop : ℕ) : List SegmentRecord :=
  List.insertionSort recLE
    ((featurePairs featureRank nTop).foldl (searchStep fit data) [])

/-- Embedding of the tail of `run_logic` (lines 126-129): an empty search result raises
`DeepchecksProcessError`, embedded as `Except.error` with the message of line 129. -/
def run_logic_segments (fit : String → String → Option (ℚ × SegmentFilter))
    (data : List Row) (featureRank : List String) (nTop : ℕ) :
    Except String (List SegmentRecord) :=
  let ws := weak_segments_search fit data featureRank nTop
  if ws.length = 0 then
    Except.error "Unable to train a error model to find weak segments."
  else
    Except.ok ws

lemma foldl_searchStep_of_all_none (fit : String → String → Option (ℚ × SegmentFilter))
    (data : List Row) :
    ∀ (pairs : List (String × String)) (acc : List SegmentRecord),
      (∀ q ∈ pairs, fit q.1 q.2 = none) →
      pairs.foldl (searchStep fit data) acc = acc := by
  intro pairs
  induction pairs with
  | nil => intro acc _; rfl
  | cons p rest ih =>
      intro acc hall
      have hp : fit p.1 p.2 = none := hall p (List.mem_cons_self p rest)
      have hstep : searchStep fit data acc p = acc := by
        simp [searchStep, find_weak_segment, hp]
      rw [List.foldl_cons, hstep]
      exact ih acc (fun q hq => hall q (List.mem_cons_of_mem p hq))

/-- Claim C2: a pair whose tree fit fails with a value error is skipped — no record is
added and previously accumulated records are unchanged — and when every pair is skipped
the check raises a fatal process error instead of returning a result. -/
theorem C2_skip_and_fatal (fit : String → String → Option (ℚ × SegmentFilter))
    (data : List Row) (featureRank : List String) (nTop : ℕ)
    (acc : List SegmentRecord) (p : String × String)
    (hskip : fit p.1 p.2 = none)
    (hall : ∀ q ∈ featurePairs featureRank nTop, fit q.1 q.2 = none) :
    searchStep fit data acc p = acc ∧
    weak_segments_search fit data featureRank nTop = [] ∧
    run_logic_segments fit data featureRank nTop =
      Except.error "Unable to train a error model to find weak segments." := by
  have hstep : searchStep fit data acc p = acc := by
    simp [searchStep, find_weak_segment, hskip]
  have hsearch : weak_segments_search fit data featureRank nTop = [] := by
    unfold weak_segments_search
    rw [foldl_searchStep_of_all_none fit data _ [] hall]
    rfl
  refine ⟨hstep, hsearch, ?_⟩
  simp [run_logic_segments, hsearch]

theorem C2_skip_and_fatal_witness :
    searchStep (fun _ _ => none) [] [] ("a", "b") = [] ∧
    weak_segments_search (fun _ _ => none) [] ["a", "b"] 2 = [] ∧
    run_logic_segments (fun _ _ => none) [] ["a", "b"] 2 =
      Except.error "Unable to train a error model to find weak segments." :=
  C2_skip_and_fatal (fun _ _ => none) [] ["a", "b"] 2 [] ("a", "b") rfl
    (fun _ _ => rfl)

/-- Claim C4: the collection of records returned by the segment search is sorted
non-decreasing by score, the worst segment first. -/
theorem C4_sorted_by_score (fit : String → String → Option (ℚ × SegmentFilter))
    (data : List Row) (featureRank : List String) (nTop : ℕ) :
    List.Pairwise (fun a b : SegmentRecord => a.score ≤ b.score)
      (weak_segments_search fit data featureRank nTop) :=
  List.sorted_insertionSort recLE
    ((featurePairs featureRank nTop).foldl (searchStep fit data) [])

/-- A concrete row whose every feature value is 1. -/
def rowOne : Row := fun _ => 1

/-- A concrete row whose every feature value is 2. -/
def rowTwo : Row := fun _ => 2

/-- A concrete two-row dataset. -/
def dataC3 : List Row := [rowOne, rowTwo]

/-- A concrete leaf filter matching exactly the rows whose feature `a` equals 1. -/
def filtC3 : SegmentFilter := [("a", ⟨some 1, some 1⟩)]

/-- A concrete fit outcome: every pair succeeds with score 0 and filter `filtC3`. -/
def fitC3 : String → String → Option (ℚ × SegmentFilter) := fun _ _ => some (0, filtC3)

/-- The single record produced by the search on `dataC3` with `fitC3`: the filter
matches one of the two rows, so the `% of data` column holds `100 * 1 / 2 = 50`. -/
def recC3 : SegmentRecord := ⟨0, "a", ⟨some 1, some 1⟩, "b", FRange.unbounded, 50⟩

lemma pairsAB : featurePairs ["a", "b"] 2 = [("a", "b")] := by decide

lemma lenC3 : (filterData (ensureBoth "a" "b" filtC3) dataC3).length = 1 := rfl

lemma stepC3 : searchStep fitC3 dataC3 [] ("a", "b") = [recC3] := by
  show [] ++
      [(⟨0, "a", ((ensureBoth "a" "b" filtC3).lookup "a").getD FRange.unbounded, "b",
        ((ensureBoth "a" "b" filtC3).lookup "b").getD FRange.unbounded,
        100 * ((filterData (ensureBoth "a" "b" filtC3) dataC3).length : ℚ) /
          ((dataC3.length : ℚ))⟩ : SegmentRecord)] = [recC3]
  rw [lenC3, show dataC3.length = 2 from rfl,
    show ((ensureBoth "a" "b" filtC3).lookup "a").getD FRange.unbounded =
      (⟨some 1, some 1⟩ : FRange) from rfl,
    show ((ensureBoth "a" "b" filtC3).lookup "b").getD FRange.unbounded =
      FRange.unbounded from rfl]
  have h : (100 : ℚ) * ((1 : ℕ) : ℚ) / ((2 : ℕ) : ℚ) = 50 := by norm_num
  rw [h]
  rfl

lemma searchC3_eq : weak_segments_search fitC3 dataC3 ["a", "b"] 2 = [recC3] := by
  unfold weak_segments_search
  rw [pairsAB, List.foldl_cons, stepC3, List.foldl_nil]
  simp

/-- Claim C3 is false as stated: on a concrete two-row dataset whose weak-segment
filter matches exactly one row, the recorded covered-data field is 50 — the value is a
percentage — while the true proportion of matching rows is 1/2; the field neither lies
in the interval (0, 1] nor equals the proportion. -/
theorem C3_counterexample :
    (weak_segments_search fitC3 dataC3 ["a", "b"] 2).map SegmentRecord.dataPercent =
      [50] ∧
    ((filterData (ensureBoth "a" "b" filtC3) dataC3).length : ℚ) /
      ((dataC3.length : ℚ)) = 1 / 2 ∧
    ¬ ((50 : ℚ) ≤ 1) ∧ (50 : ℚ) ≠ 1 / 2 := by
  refine ⟨?_, ?_, by norm_num, by norm_num⟩
  · rw [searchC3_eq]
    rfl
  · rw [lenC3, show dataC3.length = 2 from rfl]
    norm_num

lemma mem_foldl_searchStep (fit : String → String → Option (ℚ × SegmentFilter))
    (data : List Row) :
    ∀ (pairs : List (String × String)) (acc : List SegmentRecord) (r : SegmentRecord),
      r ∈ pairs.foldl (searchStep fit data) acc →
      r ∈ acc ∨ ∃ p ∈ pairs, ∃ s f, fit p.1 p.2 = some (s, f) ∧
        r.dataPercent =
          100 * ((filterData (ensureBoth p.1 p.2 f) data).length : ℚ) /
            ((data.length : ℚ)) := by
  intro pairs
  induction pairs with
  | nil => intro acc r hr; exact Or.inl hr
  | cons p rest ih =>
      intro acc r hr
      rw [List.foldl_cons] at hr
      rcases hfit : fit p.1 p.2 with _ | sf
      · have hstep : searchStep fit data acc p = acc := by
          simp [searchStep, find_weak_segment, hfit]
        rw [hstep] at hr
        rcases ih acc r hr with h | ⟨q, hq, s, f, hsf, hdp⟩
        · exact Or.inl h
        · exact Or.inr ⟨q, List.mem_cons_of_mem p hq, s, f, hsf, hdp⟩
      · have hstep : searchStep fit data acc p =
            acc ++ [⟨sf.1, p.1,
              ((ensureBoth p.1 p.2 sf.2).lookup p.1).getD FRange.unbounded, p.2,
              ((ensureBoth p.1 p.2 sf.2).lookup p.2).getD FRange.unbounded,
              100 * ((filterData (ensureBoth p.1 p.2 sf.2) data).length : ℚ) /
                ((data.length : ℚ))⟩] := by
          simp [searchStep, find_weak_segment, hfit]
        rw [hstep] at hr
        rcases ih _ r hr with h | ⟨q, hq, s, f, hsf, hdp⟩
        · rcases List.mem_append.mp h with h2 | h2
          · exact Or.inl h2
          · refine Or.inr ⟨p, List.mem_cons_self p rest, sf.1, sf.2, ?_, ?_⟩
            · rw [hfit]
            · rw [List.mem_singleton.mp h2]
        · exact Or.inr ⟨q, List.mem_cons_of_mem p hq, s, f, hsf, hdp⟩

/-- Claim C3 (amended): for every recorded feature pair, the covered-data field lies in
the half-open interval (0, 100] and equals 100 times the true proportion of rows of the
full encoded dataset matching the pair's weak-segment filter, provided the dataset is
nonempty and each successful pair's filter matches at least one row. -/
theorem C3_amended_percent (fit : String → String → Option (ℚ × SegmentFilter))
    (data : List Row) (featureRank : List String) (nTop : ℕ)
    (hdata : data ≠ [])
    (hfit : ∀ p ∈ featurePairs featureRank nTop, ∀ s f, fit p.1 p.2 = some (s, f) →
      (filterData (ensureBoth p.1 p.2 f) data).length ≠ 0)
    (r : SegmentRecord) (hr : r ∈ weak_segments_search fit data featureRank nTop) :
    0 < r.dataPercent ∧ r.dataPercent ≤ 100 ∧
    ∃ p ∈ featurePairs featureRank nTop, ∃ s f, fit p.1 p.2 = some (s, f) ∧
      r.dataPercent =
        100 * ((filterData (ensureBoth p.1 p.2 f) data).length : ℚ) /
          ((data.length : ℚ)) := by
  have hr2 : r ∈ (featurePairs featureRank nTop).foldl (searchStep fit data) [] :=
    (List.perm_insertionSort recLE _).subset hr
  rcases mem_foldl_searchStep fit data _ [] r hr2 with h | ⟨p, hp, s, f, hsf, hdp⟩
  · exact absurd h (List.not_mem_nil r)
  have hcn : (filterData (ensureBoth p.1 p.2 f) data).length ≤ data.length :=
    List.length_filter_le _ _
  have hc0 : 0 < (filterData (ensureBoth p.1 p.2 f) data).length :=
    Nat.pos_of_ne_zero (hfit p hp s f hsf)
  have hn0 : (0 : ℚ) < (data.length : ℚ) := by
    have : 0 < data.length := List.length_pos.mpr hdata
    exact_mod_cast this
  have hcq : (0 : ℚ) < ((filterData (ensureBoth p.1 p.2 f) data).length : ℚ) := by
    exact_mod_cast hc0
  have hcnq : ((filterData (ensureBoth p.1 p.2 f) data).length : ℚ) ≤
      ((data.length : ℚ)) := by exact_mod_cast hcn
  refine ⟨?_, ?_, p, hp, s, f, hsf, hdp⟩
  · rw [hdp]
    apply div_pos (by nlinarith) hn0
  · rw [hdp, div_le_iff₀ hn0]
    nlinarith

theorem C3_amended_percent_witness :
    0 < recC3.dataPercent ∧ recC3.dataPercent ≤ 100 ∧
    ∃ p ∈ featurePairs ["a", "b"] 2, ∃ s f, fitC3 p.1 p.2 = some (s, f) ∧
      recC3.dataPercent =
        100 * ((filterData (ensureBoth p.1 p.2 f) dataC3).length : ℚ) /
          ((dataC3.length : ℚ)) :=
  C3_amended_percent fitC3 dataC3 ["a", "b"] 2 (by simp [dataC3])
    (by
      intro p hp s f hsf
      have hp2 : p = ("a", "b") := by
        have hpairs : featurePairs ["a", "b"] 2 = [("a", "b")] := by decide
        rw [hpairs] at hp
        exact List.mem_singleton.mp hp
      subst hp2
      have hsf2 : some ((0 : ℚ), filtC3) = some (s, f) := hsf
      obtain ⟨rfl, rfl⟩ : (0 : ℚ) = s ∧ filtC3 = f := by
        injection hsf2 with h
        exact ⟨congrArg Prod.fst h, congrArg Prod.snd h⟩
      rw [lenC3]
      exact one_ne_zero)
    recC3 (by rw [searchC3_eq]; exact List.mem_singleton.mpr rfl)

/-- A scorer counting the rows of a slice, used as a concrete instance. -/
def scorerC5 : List Row → ℚ := fun rows => (rows.length : ℚ)

/-- A concrete one-row dataset. -/
def dataC5 : List Row := [rowOne]

/-- A single-leaf partition splitting on feature `a`. -/
def leavesA : List SegmentFilter := [[("a", ⟨none, some 1⟩)]]

/-- A single-leaf partition splitting on feature `b`, covering the same rows. -/
def leavesB : List SegmentFilter := [[("b", ⟨none, some 2⟩)]]

/-- Claim C5 context: the grid-search objective value does not determine the returned
leaf boundaries — two distinct single-leaf partitions, as two tie-broken fits of the
unseeded `DecisionTreeRegressor` of line 267 can produce, have equal
`neg_worst_segment_score` objective values while `get_worst_leaf_filter` returns
different segment filters. -/
theorem C5_objective_tie :
    neg_worst_segment_score scorerC5 dataC5 leavesA =
      neg_worst_segment_score scorerC5 dataC5 leavesB ∧
    get_worst_leaf_filter scorerC5 dataC5 leavesA ≠
      get_worst_leaf_filter scorerC5 dataC5 leavesB := by
  refine ⟨rfl, ?_⟩
  intro h
  have hA : get_worst_leaf_filter scorerC5 dataC5 leavesA =
      some (scorerC5 (filterData [("a", ⟨none, some 1⟩)] dataC5),
        [("a", ⟨none, some 1⟩)]) := rfl
  have hB : get_worst_leaf_filter scorerC5 dataC5 leavesB =
      some (scorerC5 (filterData [("b", ⟨none, some 2⟩)] dataC5),
        [("b", ⟨none, some 2⟩)]) := rfl
  rw [hA, hB] at h
  injection h with h1
  have h2 := congrArg Prod.snd h1
  simp at h2

/-- Occurrence count of one category value in a column. -/
def countOcc (col : List String) (v : String) : ℕ :=
  (col.filter (fun w => w = v)).length

/-- The `value_counts()` items of line 150: each distinct value with its count. -/
def value_counts (col : List String) : List (String × ℕ) :=
  col.dedup.map (fun v => (v, countOcc col v))

/-- Lines 150-151: `categories_to_mask`, the categories whose relative frequency in the
dataset is strictly below the aggregation threshold. -/
def categories_to_mask (col : List String) (nSamples : ℕ) (t : ℚ) : List String :=
  ((value_counts col).filter
    (fun kv => decide ((kv.2 : ℚ) / (nSamples : ℚ) < t))).map Prod.fst

/-- Line 152: every row holding a masked category is replaced by the other bucket. -/
def aggregateColumn (col : List String) (nSamples : ℕ) (t : ℚ) : List String :=
  col.map (fun v => if v ∈ categories_to_mask col nSamples t then "other" else v)

lemma mem_categories_to_mask (col : List String) (n : ℕ) (t : ℚ) (v : String)
    (hv : v ∈ col) :
    v ∈ categories_to_mask col n t ↔ (countOcc col v : ℚ) / (n : ℚ) < t := by
  constructor
  · intro h
    rcases List.mem_map.mp h with ⟨kv, hkv, hfst⟩
    rcases List.mem_filter.mp hkv with ⟨hkv2, hcond⟩
    rcases List.mem_map.mp hkv2 with ⟨w, _, hg⟩
    subst hg
    cases hfst
    exact of_decide_eq_true hcond
  · intro h
    exact List.mem_map.mpr ⟨(v, countOcc col v),
      List.mem_filter.mpr ⟨List.mem_map.mpr ⟨v, List.mem_dedup.mpr hv, rfl⟩,
        decide_eq_true h⟩, rfl⟩

/-- A concrete column of 20 rows: 16 at `a` (80 percent), 3 at `b` (15 percent), one at
`c` (exactly 5 percent). -/
def colEq : List String :=
  List.replicate 16 "a" ++ List.replicate 3 "b" ++ ["c"]

/-- A concrete column of 25 rows: 20 at `a`, 4 at `b`, one at `c` (4 percent). -/
def colBelow : List String :=
  List.replicate 20 "a" ++ List.replicate 4 "b" ++ ["c"]

/-- Claim C6: a category is collapsed into the other bucket iff its relative frequency
is strictly below the threshold; a category at exactly the threshold (5 percent at
threshold 0.05) is kept, one below it (4 percent) is collapsed. -/
theorem C6_threshold_strict :
    (∀ (col : List String) (nSamples : ℕ) (t : ℚ),
      aggregateColumn col nSamples t =
        col.map (fun v =>
          if (countOcc col v : ℚ) / (nSamples : ℚ) < t then "other" else v)) ∧
    "c" ∉ categories_to_mask colEq 20 (1 / 20) ∧
    aggregateColumn colEq 20 (1 / 20) = colEq ∧
    "c" ∈ categories_to_mask colBelow 25 (1 / 20) ∧
    aggregateColumn colBelow 25 (1 / 20) =
      colBelow.map (fun v => if v = "c" then "other" else v) := by
  have hmain : ∀ (col : List String) (nSamples : ℕ) (t : ℚ),
      aggregateColumn col nSamples t =
        col.map (fun v =>
          if (countOcc col v : ℚ) / (nSamples : ℚ) < t then "other" else v) := by
    intro col n t
    apply List.map_congr_left
    intro v hv
    by_cases h : (countOcc col v : ℚ) / (n : ℚ) < t
    · rw [if_pos ((mem_categories_to_mask col n t v hv).mpr h), if_pos h]
    · rw [if_neg (fun hm => h ((mem_categories_to_mask col n t v hv).mp hm)), if_neg h]
  have hcEq : "c" ∈ colEq := by decide
  have hcBelow : "c" ∈ colBelow := by decide
  have hvalsEq : ∀ v ∈ colEq, v = "a" ∨ v = "b" ∨ v = "c" := by decide
  have hvalsBelow : ∀ v ∈ colBelow, v = "a" ∨ v = "b" ∨ v = "c" := by decide
  refine ⟨hmain, ?_, ?_, ?_, ?_⟩
  · rw [mem_categories_to_mask colEq 20 (1 / 20) "c" hcEq,
      show countOcc colEq "c" = 1 from rfl]
    norm_num
  · rw [hmain]
    have hid : ∀ v ∈ colEq,
        (if (countOcc colEq v : ℚ) / ((20 : ℕ) : ℚ) < 1 / 20 then "other" else v) = v := by
      intro v hv
      rcases hvalsEq v hv with rfl | rfl | rfl
      · rw [if_neg]
        rw [show countOcc colEq "a" = 16 from rfl]
        norm_num
      · rw [if_neg]
        rw [show countOcc colEq "b" = 3 from rfl]
        norm_num
      · rw [if_neg]
        rw [show countOcc colEq "c" = 1 from rfl]
        norm_num
    rw [List.map_congr_left hid]
    simp
  · rw [mem_categories_to_mask colBelow 25 (1 / 20) "c" hcBelow,
      show countOcc colBelow "c" = 1 from rfl]
    norm_num
  · rw [hmain]
    apply List.map_congr_left
    intro v hv
    rcases hvalsBelow v hv with rfl | rfl | rfl
    · rw [if_neg, if_neg (by decide)]
      rw [show countOcc colBelow "a" = 20 from rfl]
      norm_num
    · rw [if_neg, if_neg (by decide)]
      rw [show countOcc colBelow "b" = 4 from rfl]
      norm_num
    · rw [if_pos, if_pos rfl]
      rw [show countOcc colBelow "c" = 1 from rfl]
      norm_num

/-- One interval of the categorical branch of `_format_partition_vec_for_display`
(lines 288-296): the raw categories whose encoded value falls in the interval, where
the lowest interval — the one whose lower bound equals `partition_vec[0]` — is closed
on both ends and every other interval is open below and closed above. -/
def values_in_range (mapping : List (ℚ × String)) (p0 lower upper : ℚ) : List String :=
  if lower = p0 then
    (mapping.filter
      (fun em => decide (lower ≤ em.1) && decide (em.1 ≤ upper))).map Prod.snd
  else
    (mapping.filter
      (fun em => decide (lower < em.1) && decide (em.1 ≤ upper))).map Prod.snd

/-- The categorical branch of `_format_partition_vec_for_display` (lines 285-296 with
`seperator=None`): one list of raw categories per consecutive boundary pair of the
partition vector. -/
def format_partition_cat (mapping : List (ℚ × String)) (pvec : List ℚ) :
    List (List String) :=
  (pvec.zip (pvec.drop 1)).map
    (fun lu => values_in_range mapping (pvec.headD 0) lu.1 lu.2)

lemma filter_eq_singleton {α : Type} (p : α → Bool) (l : List α) (a : α)
    (ha : a ∈ l) (hpa : p a = true) (hnd : l.Nodup)
    (hothers : ∀ b ∈ l, b ≠ a → p b = false) :
    l.filter p = [a] := by
  induction l with
  | nil => cases ha
  | cons x rest ih =>
      rcases List.mem_cons.mp ha with hax | hmem
      · rw [← hax] at hnd hothers ⊢
        rw [List.filter_cons_of_pos hpa]
        have hnil : rest.filter p = [] := by
          rw [List.filter_eq_nil_iff]
          intro b hb
          have hba : b ≠ a := by
            intro hcontra
            exact (List.nodup_cons.mp hnd).1 (by rw [← hcontra]; exact hb)
          simp [hothers b (List.mem_cons_of_mem a hb) hba]
        rw [hnil]
      · have hxa : x ≠ a := by
          intro hcontra
          exact (List.nodup_cons.mp hnd).1 (by rw [hcontra]; exact hmem)
        rw [List.filter_cons_of_neg
          (by simp [hothers x (List.mem_cons_self x rest) hxa])]
        exact ih hmem (List.nodup_cons.mp hnd).2
          (fun b hb => hothers b (List.mem_cons_of_mem x hb))

/-- Claim C7: decoding, through the category encoding map, a partition interval that
exactly brackets the encoded value of a category returns exactly that original
category, with the boundary convention that the interval whose lower bound is the first
partition boundary is closed on both ends and all other intervals are open below and
closed above. -/
theorem C7_encode_decode_roundtrip (mapping : List (ℚ × String)) (pvec : List ℚ)
    (lower upper e : ℚ) (c : String)
    (hmem : (e, c) ∈ mapping) (hnd : mapping.Nodup)
    (hzip : (lower, upper) ∈ pvec.zip (pvec.drop 1))
    (hin : if lower = pvec.headD 0 then lower ≤ e ∧ e ≤ upper
           else lower < e ∧ e ≤ upper)
    (hothers : ∀ b ∈ mapping, b ≠ (e, c) →
      ¬ (if lower = pvec.headD 0 then lower ≤ b.1 ∧ b.1 ≤ upper
         else lower < b.1 ∧ b.1 ≤ upper)) :
    values_in_range mapping (pvec.headD 0) lower upper = [c] ∧
    [c] ∈ format_partition_cat mapping pvec := by
  have hvr : values_in_range mapping (pvec.headD 0) lower upper = [c] := by
    by_cases hfirst : lower = pvec.headD 0
    · rw [if_pos hfirst] at hin
      rw [values_in_range, if_pos hfirst,
        filter_eq_singleton _ mapping (e, c) hmem
          (by simp [hin.1, hin.2]) hnd ?_]
      · rfl
      · intro b hb hbne
        have h2 := hothers b hb hbne
        rw [if_pos hfirst] at h2
        by_cases h3 : lower ≤ b.1
        · have h4 : ¬ b.1 ≤ upper := fun h5 => h2 ⟨h3, h5⟩
          simp [h4]
        · simp [h3]
    · rw [if_neg hfirst] at hin
      rw [values_in_range, if_neg hfirst,
        filter_eq_singleton _ mapping (e, c) hmem
          (by simp [hin.1, hin.2]) hnd ?_]
      · rfl
      · intro b hb hbne
        have h2 := hothers b hb hbne
        rw [if_neg hfirst] at h2
        by_cases h3 : lower < b.1
        · have h4 : ¬ b.1 ≤ upper := fun h5 => h2 ⟨h3, h5⟩
          simp [h4]
        · simp [h3]
  exact ⟨hvr, List.mem_map.mpr ⟨(lower, upper), hzip, hvr⟩⟩

/-- A concrete category encoding map with two categories. -/
def mappingC7 : List (ℚ × String) := [(1, "x"), (2, "y")]

/-- A concrete partition vector with three boundaries. -/
def pvecC7 : List ℚ := [0, 1, 2]

theorem C7_encode_decode_roundtrip_witness :
    values_in_range mappingC7 (pvecC7.headD 0) 1 2 = ["y"] ∧
    ["y"] ∈ format_partition_cat mappingC7 pvecC7 :=
  C7_encode_decode_roundtrip mappingC7 pvecC7 1 2 2 "y" (by decide) (by decide)
    (by decide) (by decide) (by decide)

/-- The two condition outcomes produced by the attachable condition (lines 319 and
321). -/
inductive ConditionCategory
  | pass
  | warn
deriving DecidableEq

/-- A record with a given score, used for concrete condition inputs. -/
def recOf (s : ℚ) : SegmentRecord := ⟨s, "", FRange.unbounded, "", FRange.unbounded, 0⟩

/-- Embedding of `condition` (lines 314-321): the weakest segment score is the first
row's first column of the sorted segments frame (`iloc[0, 0]`), and the result is WARN
exactly when that score is strictly below `(1 - max_ratio_change) * avg_score`, PASS
otherwise. -/
def condition (segments : List SegmentRecord) (avgScore maxRatioChange : ℚ) :
    ConditionCategory :=
  if (segments.headD default).score < (1 - maxRatioChange) * avgScore then
    ConditionCategory.warn
  else ConditionCategory.pass

/-- Claim C8: the condition predicate returns WARN iff the worst segment score is
strictly below `(1 - max_ratio_change)` times the average score and PASS otherwise;
with worst score 0.5, average 1.0 and ratio 0.20 the threshold is 0.8 and the result is
WARN, while worst score 0.85 gives PASS. -/
theorem C8_condition_threshold :
    (∀ (r : SegmentRecord) (rest : List SegmentRecord) (avg mrc : ℚ),
      (condition (r :: rest) avg mrc = ConditionCategory.warn ↔
        r.score < (1 - mrc) * avg) ∧
      (condition (r :: rest) avg mrc = ConditionCategory.pass ↔
        ¬ r.score < (1 - mrc) * avg)) ∧
    (1 - (1 / 5 : ℚ)) * 1 = 4 / 5 ∧
    condition [recOf (1 / 2)] 1 (1 / 5) = ConditionCategory.warn ∧
    condition [recOf (17 / 20)] 1 (1 / 5) = ConditionCategory.pass := by
  refine ⟨?_, by norm_num, ?_, ?_⟩
  · intro r rest avg mrc
    have hhead : ((r :: rest).headD default) = r := rfl
    constructor
    · rw [condition, hhead]
      by_cases h : r.score < (1 - mrc) * avg
      · simp [h]
      · simp [h]
    · rw [condition, hhead]
      by_cases h : r.score < (1 - mrc) * avg
      · simp [h]
      · simp [h]
  · have h : (recOf (1 / 2)).score < (1 - (1 / 5 : ℚ)) * 1 := by
      rw [show (recOf (1 / 2)).score = 1 / 2 from rfl]
      norm_num
    rw [condition, if_pos (by exact h)]
  · have h : ¬ (recOf (17 / 20)).score < (1 - (1 / 5 : ℚ)) * 1 := by
      rw [show (recOf (17 / 20)).score = 17 / 20 from rfl]
      norm_num
    rw [condition, if_neg (by exact h)]

/-- A single encoded column with pandas row alignment: each entry is an index label and
an optional value, `none` standing for a missing value (NaN). -/
abbrev Col := List (ℕ × Option ℚ)

/-- Occurrence count of a value among the non-missing entries of a column. -/
def colCount (col : Col) (v : ℚ) : ℕ :=
  (col.filter (fun e => decide (e.2 = some v))).length

/-- The distinct non-missing values of a column. -/
def colValues (col : Col) : List ℚ :=
  (col.filterMap Prod.snd).dedup

/-- Embedding of one column of `df_encoded.mode(axis=0)` (line 162): the values
attaining the maximal occurrence count, sorted ascending, carried on a fresh integer
RangeIndex `0, 1, 2, ...`. -/
def modeFrame (col : Col) : List (ℕ × ℚ) :=
  let m := ((colValues col).map (colCount col)).foldr max 0
  let modes :=
    List.insertionSort (· ≤ ·) ((colValues col).filter (fun v => colCount col v = m))
  (List.range modes.length).zip modes

/-- Embedding of `DataFrame.fillna(value)` with a DataFrame argument, per column: a
missing entry at index label `i` is filled from the value frame's entry at the same
label `i`, and is left missing when the value frame has no entry at that label. -/
def fillna (col : Col) (value : List (ℕ × ℚ)) : Col :=
  col.map (fun e =>
    match e.2 with
    | some x => (e.1, some x)
    | none => (e.1, value.lookup e.1))

/-- Embedding of line 162, `df_encoded.fillna(df_encoded.mode(axis=0), inplace=True)`,
for one column. -/
def fillna_with_mode (col : Col) : Col := fillna col (modeFrame col)

/-- A concrete column with index labels 10, 11, 12 and one missing value. -/
def colC9 : Col := [(10, some 1), (11, some 1), (12, none)]

/-- Claim C9 failing input: on a column whose index labels are 10, 11, 12, the mode
frame exists (the value 1 at RangeIndex position 0), yet the fill leaves the column
unchanged — the missing value at label 12 is aligned against the absent label 12 of the
mode frame, so it is not replaced by the mode. -/
theorem C9_fillna_misaligned :
    modeFrame colC9 = [(0, 1)] ∧
    fillna_with_mode colC9 = colC9 ∧
    (12, (none : Option ℚ)) ∈ fillna_with_mode colC9 := by
  refine ⟨by decide, by decide, by decide⟩

/-- Line 63 of the recommender `_DummyModel.__init__`: whether the train and test index
sets intersect. -/
def hasCommonIndex (trainIdx testIdx : List String) : Bool :=
  trainIdx.any (fun x => testIdx.contains x)

/-- Embedding of lines 61-68 of the recommender `_DummyModel.__init__`: when both
datasets are given and their index sets intersect, both indexes are mutated in place —
every train label gets the train tag and every test label the test tag prepended to its
string form; otherwise both indexes are left unchanged. -/
def dummy_model_reindex (trainIdx testIdx : List String) :
    List String × List String :=
  if hasCommonIndex trainIdx testIdx then
    (trainIdx.map (fun x => "train-" ++ x), testIdx.map (fun x => "test-" ++ x))
  else (trainIdx, testIdx)

lemma trainTag_ne_testTag (x y : String) : "train-" ++ x ≠ "test-" ++ y := by
  intro h
  have h2 : ("train-" ++ x).data = ("test-" ++ y).data := by rw [h]
  rw [String.data_append, String.data_append] at h2
  rw [show "train-".data = ['t', 'r', 'a', 'i', 'n', '-'] from rfl,
    show "test-".data = ['t', 'e', 's', 't', '-'] from rfl] at h2
  simp at h2

/-- Claim C10: constructing the recommender `_DummyModel` with intersecting train and
test index sets replaces every train index by the train tag prepended to its string
form and every test index by the test tag prepended, after which the two index sets are
disjoint; with disjoint index sets both indexes are left unchanged. -/
theorem C10_dummy_model_reindex (trainIdx testIdx : List String) :
    (hasCommonIndex trainIdx testIdx = true →
      dummy_model_reindex trainIdx testIdx =
        (trainIdx.map (fun x => "train-" ++ x),
         testIdx.map (fun x => "test-" ++ x)) ∧
      ∀ a ∈ (dummy_model_reindex trainIdx testIdx).1,
        a ∉ (dummy_model_reindex trainIdx testIdx).2) ∧
    (hasCommonIndex trainIdx testIdx = false →
      dummy_model_reindex trainIdx testIdx = (trainIdx, testIdx)) := by
  constructor
  · intro h
    have heq : dummy_model_reindex trainIdx testIdx =
        (trainIdx.map (fun x => "train-" ++ x),
         testIdx.map (fun x => "test-" ++ x)) := by
      rw [dummy_model_reindex, if_pos h]
    refine ⟨heq, ?_⟩
    rw [heq]
    intro a ha hb
    rcases List.mem_map.mp ha with ⟨x, _, hx⟩
    rcases List.mem_map.mp hb with ⟨y, _, hy⟩
    exact trainTag_ne_testTag x y (hy ▸ hx)
  · intro h
    rw [dummy_model_reindex, if_neg (by rw [h]; exact Bool.false_ne_true)]

theorem C10_dummy_model_reindex_witness :
    (dummy_model_reindex ["1", "2"] ["2", "3"] =
        (["1", "2"].map (fun x => "train-" ++ x),
         ["2", "3"].map (fun x => "test-" ++ x)) ∧
      ∀ a ∈ (dummy_model_reindex ["1", "2"] ["2", "3"]).1,
        a ∉ (dummy_model_reindex ["1", "2"] ["2", "3"]).2) ∧
    dummy_model_reindex ["1", "2"] ["3", "4"] = (["1", "2"], ["3", "4"]) :=
  ⟨(C10_dummy_model_reindex ["1", "2"] ["2", "3"]).1 (by decide),
   (C10_dummy_model_reindex ["1", "2"] ["3", "4"]).2 (by decide)⟩

end WeakSegments
